import Mathlib

/-!
# Axes lollipop widget (`src/widgets/axes_lollipop.cpp`)

A shallow embedding of the cube orientation indicator: the static vertex and
face tables, the corrective view transform, the back-face test, the hit-test
`get_face_at_position`, the paint order computed by `render`, and the pointer
handlers of `setup_controllers`.

Number model.  The C++ `float` and `double` values are rationals (`ℚ`): every
float is a dyadic rational.  The file holds two embeddings of the arithmetic.
The first takes every operation at its exact value; the properties of the
control structure (the guard, the first match in table order, the tables, the
handlers, the sort) are stated over it.  The second, the definitions `Fl.f`,
rounds every operation as an `Arith` says: `Arith.binary32` is the arithmetic
of the code, and `Arith.exact` gives back the first embedding (part "Exact
arithmetic is the rounded model without rounding").  The properties that
depend on the outcome of a sign test are stated over the second, with the
arithmetic named in each statement.  Overflow, infinities and NaN are outside
both; division is the total division of `ℚ`.  The `int` fields are `Int`, and
the C++ `/` on two `int`s is the truncating `Int.tdiv`.

Library model.  `std::sort` on the at most 6 visible faces is libstdc++'s
insertion sort for ranges under 16 elements.  The glm operations are
transcribed from the glm headers
(`glm/detail/type_quat.inl`, `glm/ext/quaternion_*.inl`).  In exact arithmetic
`angleAxis(pi, (0,1,0))` is taken at `cos (pi/2) = 0`, `sin (pi/2) = 1`; in
binary32 the code has `cosf` of the binary32 `pi / 2`, which is about
`-4.37e-8` (`Arith.binary32`).
-/

namespace dune3d

/-! ## glm vectors and quaternions -/

/-- The type `glm::vec3`. -/
structure Vec3 where
  x : ℚ
  y : ℚ
  z : ℚ
  deriving DecidableEq, Repr

/-- The type `glm::vec2`. -/
structure Vec2 where
  x : ℚ
  y : ℚ
  deriving DecidableEq, Repr

/-- The type `glm::quat`, with the scalar part `w` first. -/
structure Quat where
  w : ℚ
  x : ℚ
  y : ℚ
  z : ℚ
  deriving DecidableEq, Repr

namespace Vec3

/-- Componentwise `a - b` on `glm::vec3`. -/
def sub (a b : Vec3) : Vec3 := ⟨a.x - b.x, a.y - b.y, a.z - b.z⟩

/-- Componentwise `a + b` on `glm::vec3`. -/
def add (a b : Vec3) : Vec3 := ⟨a.x + b.x, a.y + b.y, a.z + b.z⟩

/-- The product `v * s` of a `glm::vec3` with a scalar. -/
def scale (v : Vec3) (s : ℚ) : Vec3 := ⟨v.x * s, v.y * s, v.z * s⟩

/-- The function `glm::cross`. -/
def cross (a b : Vec3) : Vec3 :=
  ⟨a.y * b.z - b.y * a.z, a.z * b.x - b.z * a.x, a.x * b.y - b.x * a.y⟩

end Vec3

namespace Quat

/-- The function `glm::dot` on quaternions. -/
def dot (a b : Quat) : ℚ := a.x * b.x + a.y * b.y + a.z * b.z + a.w * b.w

/-- The function `glm::conjugate`. -/
def conjugate (q : Quat) : Quat := ⟨q.w, -q.x, -q.y, -q.z⟩

/-- The function `glm::inverse`: `conjugate(q) / dot(q, q)`, in exact
arithmetic (`Fl.inverse` rounds).  At the zero quaternion the code divides
`0.0f` by `0.0f`; that state is outside the model. -/
def inverse (q : Quat) : Quat :=
  let c := conjugate q
  let d := dot q q
  ⟨c.w / d, c.x / d, c.y / d, c.z / d⟩

/-- The Hamilton product `p * q` of glm. -/
def mul (p q : Quat) : Quat :=
  ⟨p.w * q.w - p.x * q.x - p.y * q.y - p.z * q.z,
   p.w * q.x + p.x * q.w + p.y * q.z - p.z * q.y,
   p.w * q.y + p.y * q.w + p.z * q.x - p.x * q.z,
   p.w * q.z + p.z * q.w + p.x * q.y - p.y * q.x⟩

/-- The function `glm::rotate(q, v)`, which is glm's `q * v`:
`v + ((uv * q.w) + uuv) * 2` with `uv = cross(u, v)`, `uuv = cross(u, uv)` and
`u` the vector part of `q`. -/
def rotate (q : Quat) (v : Vec3) : Vec3 :=
  let u : Vec3 := ⟨q.x, q.y, q.z⟩
  let uv := Vec3.cross u v
  let uuv := Vec3.cross u uv
  Vec3.add v (Vec3.scale (Vec3.add (Vec3.scale uv q.w) uuv) 2)

/-- The value of `glm::angleAxis(glm::pi<float>(), glm::vec3(0, 1, 0))` in exact
arithmetic: `(cos (pi/2), 0 * sin (pi/2), 1 * sin (pi/2), 0 * sin (pi/2))` with
`cos (pi/2) = 0`.  The value the code computes is `Fl.angleAxis_pi_Y
Arith.binary32`, whose first component is about `-4.37e-8`. -/
def angleAxis_pi_Y : Quat := ⟨0, 0, 1, 0⟩

/-- The identity orientation. -/
def identity : Quat := ⟨1, 0, 0, 0⟩

end Quat

/-! ## Static tables -/

/-- The record `struct Face`. -/
structure Face where
  vertices : List Nat
  axis : Nat
  label : String
  positive : Bool
  face_id : Int
  deriving DecidableEq, Repr

/-- The constant `const double size = 0.9`. -/
def size : ℚ := 9 / 10

/-- The array `vertices[8]` of `get_face_at_position`. -/
def vertices : List Vec3 :=
  [⟨-size, -size, -size⟩,
   ⟨ size, -size, -size⟩,
   ⟨ size,  size, -size⟩,
   ⟨-size,  size, -size⟩,
   ⟨-size, -size,  size⟩,
   ⟨ size, -size,  size⟩,
   ⟨ size,  size,  size⟩,
   ⟨-size,  size,  size⟩]

/-- The array `vertices[8]` of `render`. -/
def render_vertices : List Vec3 :=
  [⟨-size, -size, -size⟩,
   ⟨ size, -size, -size⟩,
   ⟨ size,  size, -size⟩,
   ⟨-size,  size, -size⟩,
   ⟨-size, -size,  size⟩,
   ⟨ size, -size,  size⟩,
   ⟨ size,  size,  size⟩,
   ⟨-size,  size,  size⟩]

/-- The array `faces[6]` of `get_face_at_position`. -/
def faces : List Face :=
  [⟨[1, 5, 6, 2], 0, "X", true, 0⟩,
   ⟨[4, 0, 3, 7], 0, "-X", false, 1⟩,
   ⟨[3, 2, 6, 7], 1, "Y", true, 2⟩,
   ⟨[4, 5, 1, 0], 1, "-Y", false, 3⟩,
   ⟨[5, 4, 7, 6], 2, "Z", true, 4⟩,
   ⟨[0, 1, 2, 3], 2, "-Z", false, 5⟩]

/-- The array `faces[6]` of `render`. -/
def render_faces : List Face :=
  [⟨[1, 5, 6, 2], 0, "X", true, 0⟩,
   ⟨[4, 0, 3, 7], 0, "-X", false, 1⟩,
   ⟨[3, 2, 6, 7], 1, "Y", true, 2⟩,
   ⟨[4, 5, 1, 0], 1, "-Y", false, 3⟩,
   ⟨[5, 4, 7, 6], 2, "Z", true, 4⟩,
   ⟨[0, 1, 2, 3], 2, "-Z", false, 5⟩]

/-- The array `face_names` of the click handler. -/
def face_names : List String := ["+X", "-X", "+Y", "-Y", "+Z", "-Z"]

/-! ## Component state -/

/-- The data members of `class AxesLollipop` (the Pango layout apart). -/
structure AxesLollipop where
  m_quat : Quat
  m_size : ℚ
  m_hovered_face : Int
  m_last_x : ℚ
  m_last_y : ℚ
  m_width : Int
  m_height : Int
  deriving DecidableEq, Repr

/-- The state the header's member initialisers give a fresh widget, with the
orientation and the measured label size left to the caller. -/
def AxesLollipop.initial (q : Quat) (label_size : ℚ) : AxesLollipop :=
  ⟨q, max 5 label_size, -1, 0, 0, 0, 0⟩

/-! ## Geometry -/

/-- The function `is_face_visible`, in exact arithmetic (`Fl.is_face_visible`
rounds). -/
def is_face_visible (v0 v1 v2 : Vec3) : Bool :=
  let edge1 := Vec3.sub v1 v0
  let edge2 := Vec3.sub v2 v0
  let normal := Vec3.cross edge1 edge2
  decide (normal.z < 0)

/-- The expression `(std::min(w, h) / 2) - m_size`: an `int` halving, then a
`float` subtraction. -/
def scale_of (w h : Int) (m_size : ℚ) : ℚ :=
  ((Int.tdiv (min w h) 2 : Int) : ℚ) - m_size

/-- The quaternion `corrected_view_quat`. -/
def corrected_view_quat (m_quat : Quat) : Quat :=
  Quat.mul Quat.angleAxis_pi_Y (Quat.inverse m_quat)

/-- The loop filling `transformed[8]` from a vertex table. -/
def transform_all (m_quat : Quat) (sc : ℚ) (vs : List Vec3) : List Vec3 :=
  vs.map (fun v => Vec3.scale (Quat.rotate (corrected_view_quat m_quat) v) sc)

/-- An array read `a[i]`. -/
def vertex_at (a : List Vec3) (i : Nat) : Vec3 := a.getD i ⟨0, 0, 0⟩

/-- An array read `face.vertices[k]`. -/
def Face.vertex (face : Face) (k : Nat) : Nat := face.vertices.getD k 0

/-- The back-face test of one face on its first three transformed vertices. -/
def face_visible (transformed : List Vec3) (face : Face) : Bool :=
  is_face_visible (vertex_at transformed (face.vertex 0))
    (vertex_at transformed (face.vertex 1))
    (vertex_at transformed (face.vertex 2))

/-! ## Hit-test -/

/-- The lambda `sign` of `get_face_at_position`, in exact arithmetic (`Fl.sign`
rounds). -/
def sign (p1 p2 p3 : Vec2) : ℚ :=
  (p1.x - p3.x) * (p2.y - p3.y) - (p2.x - p3.x) * (p1.y - p3.y)

/-- The two-triangle test of the loop body: `in_tri1 || in_tri2`, in exact
arithmetic (`Fl.point_in_quad` rounds). -/
def point_in_quad (transformed : List Vec3) (face : Face) (p : Vec2) : Bool :=
  let v0 := vertex_at transformed (face.vertex 0)
  let v1 := vertex_at transformed (face.vertex 1)
  let v2 := vertex_at transformed (face.vertex 2)
  let v3 := vertex_at transformed (face.vertex 3)
  let p0 : Vec2 := ⟨v0.x, v0.y⟩
  let p1 : Vec2 := ⟨v1.x, v1.y⟩
  let p2 : Vec2 := ⟨v2.x, v2.y⟩
  let p3 : Vec2 := ⟨v3.x, v3.y⟩
  let d1 := sign p p0 p1
  let d2 := sign p p1 p2
  let d3 := sign p p2 p0
  let in_tri1 := (decide (d1 ≤ 0) && decide (d2 ≤ 0) && decide (d3 ≤ 0))
    || (decide (d1 ≥ 0) && decide (d2 ≥ 0) && decide (d3 ≥ 0))
  let e1 := sign p p0 p2
  let e2 := sign p p2 p3
  let e3 := sign p p3 p0
  let in_tri2 := (decide (e1 ≤ 0) && decide (e2 ≤ 0) && decide (e3 ≤ 0))
    || (decide (e1 ≥ 0) && decide (e2 ≥ 0) && decide (e3 ≥ 0))
  in_tri1 || in_tri2

/-- The loop `for (const auto &face : faces)` of `get_face_at_position`, with
the final `return -1`. -/
def hit_loop (transformed : List Vec3) (p : Vec2) : List Face → Int
  | [] => -1
  | face :: rest =>
    if !face_visible transformed face then hit_loop transformed p rest
    else if point_in_quad transformed face p then face.face_id
    else hit_loop transformed p rest

/-- The scale `sc` computed by `get_face_at_position`. -/
def hit_scale (st : AxesLollipop) : ℚ := scale_of st.m_width st.m_height st.m_size

/-- The array `transformed` computed by `get_face_at_position`. -/
def hit_transformed (st : AxesLollipop) : List Vec3 :=
  transform_all st.m_quat (hit_scale st) vertices

/-- The offsets `m_width / 2.0f` and `m_height / 2.0f` subtracted from the
pointer position: the origin of the hit-test frame. -/
def hit_origin (st : AxesLollipop) : Vec2 :=
  ⟨(st.m_width : ℚ) / 2, (st.m_height : ℚ) / 2⟩

/-- The point `(mouse_x, mouse_y)`. -/
def mouse_point (st : AxesLollipop) (x y : ℚ) : Vec2 :=
  ⟨x - (hit_origin st).x, y - (hit_origin st).y⟩

/-- The method `AxesLollipop::get_face_at_position`. -/
def get_face_at_position (st : AxesLollipop) (x y : ℚ) : Int :=
  if st.m_width = 0 ∨ st.m_height = 0 then -1
  else hit_loop (hit_transformed st) (mouse_point st x y) faces

/-! ## Render -/

/-- The local record `struct VisibleFace`: a face of the table and its depth. -/
structure VisibleFace where
  face : Face
  depth : ℚ
  deriving DecidableEq, Repr

/-- The depth key `avg_z`: the z-components of the face's vertices summed in
order from `0`, then divided by `4`. -/
def avg_z (transformed : List Vec3) (face : Face) : ℚ :=
  (face.vertices.foldl (fun acc idx => acc + (vertex_at transformed idx).z) 0) / 4

/-- The loop of `render` that fills `visible_faces` by `push_back`. -/
def collect_visible (transformed : List Vec3) : List Face → List VisibleFace
  | [] => []
  | face :: rest =>
    if face_visible transformed face then
      ⟨face, avg_z transformed face⟩ :: collect_visible transformed rest
    else collect_visible transformed rest

/-- The comparator passed to `std::sort`: `a.depth < b.depth`. -/
def depth_less (a b : VisibleFace) : Bool := decide (a.depth < b.depth)

/-- The scan of libstdc++'s `__unguarded_linear_insert`, on the sorted range
held last element first: `val` moves left past every element it compares less
than. -/
def unguarded_linear_insert (val : VisibleFace) : List VisibleFace → List VisibleFace
  | [] => [val]
  | next :: rest =>
    if depth_less val next then next :: unguarded_linear_insert val rest
    else val :: next :: rest

/-- One iteration of libstdc++'s `__insertion_sort`, on the sorted range held
last element first: an element less than `*first` goes to the front, any other
is placed by `__unguarded_linear_insert`. -/
def insertion_step (sorted_rev : List VisibleFace) (val : VisibleFace) : List VisibleFace :=
  match sorted_rev.getLast? with
  | none => [val]
  | some first =>
    if depth_less val first then sorted_rev ++ [val]
    else unguarded_linear_insert val sorted_rev

/-- The call `std::sort(visible_faces.begin(), visible_faces.end(), cmp)`.
The vector holds at most 6 elements, and on a range shorter than 16 elements
libstdc++'s `std::sort` is `__insertion_sort`. -/
def std_sort (xs : List VisibleFace) : List VisibleFace :=
  (xs.foldl insertion_step []).reverse

/-- The scale `sc` computed by `render(cr, w, h)`. -/
def render_scale (st : AxesLollipop) (w h : Int) : ℚ := scale_of w h st.m_size

/-- The array `transformed` computed by `render(cr, w, h)`. -/
def render_transformed (st : AxesLollipop) (w h : Int) : List Vec3 :=
  transform_all st.m_quat (render_scale st w h) render_vertices

/-- The vector `visible_faces` of `render` before it is sorted. -/
def render_visible_faces (st : AxesLollipop) (w h : Int) : List VisibleFace :=
  collect_visible (render_transformed st w h) render_faces

/-- The vector `visible_faces` of `render` after `std::sort`: the faces in the
order the drawing loop paints them. -/
def render_draw_order (st : AxesLollipop) (w h : Int) : List VisibleFace :=
  std_sort (render_visible_faces st w h)

/-- The argument of `cr->translate(w / 2, h / 2)`: two `int` halvings. -/
def render_origin (w h : Int) : Vec2 :=
  ⟨((Int.tdiv w 2 : Int) : ℚ), ((Int.tdiv h 2 : Int) : ℚ)⟩

/-- The state after `render(cr, w, h)`: the viewport size is stored. -/
def render (st : AxesLollipop) (w h : Int) : AxesLollipop :=
  { st with m_width := w, m_height := h }

/-! ## Pointer handlers -/

/-- The `signal_motion` handler; the flag tells whether `queue_draw` ran. -/
def on_motion (st : AxesLollipop) (x y : ℚ) : AxesLollipop × Bool :=
  let st1 := { st with m_last_x := x, m_last_y := y }
  let old_hovered := st1.m_hovered_face
  let st2 := { st1 with m_hovered_face := get_face_at_position st1 x y }
  (st2, decide (old_hovered ≠ st2.m_hovered_face))

/-- The `signal_leave` handler; the flag tells whether `queue_draw` ran. -/
def on_leave (st : AxesLollipop) : AxesLollipop × Bool :=
  if st.m_hovered_face ≠ -1 then ({ st with m_hovered_face := -1 }, true)
  else (st, false)

/-- The `signal_pressed` handler: the state after the click and the lines
written to `std::cout`.  A read of `face_names` past its end has no defined
result and gives `none`. -/
def on_pressed (st : AxesLollipop) (_n_press : Int) (x y : ℚ) :
    Option (AxesLollipop × List String) :=
  let face_id := get_face_at_position st x y
  if face_id ≥ 0 then
    match face_names[face_id.toNat]? with
    | some name => some (st, ["Clicked face: " ++ name])
    | none => none
  else some (st, [])

/-! ## Predicates used in the statements -/

/-- The face is visible and its two-triangle test accepts the point. -/
def face_accepts (tr : List Vec3) (p : Vec2) (face : Face) : Bool :=
  face_visible tr face && point_in_quad tr face p

/-- The face at table index `i` is visible and its two-triangle test accepts
the centred pointer position. -/
def face_hit (st : AxesLollipop) (x y : ℚ) (i : Nat) : Bool :=
  match faces[i]? with
  | some face => face_accepts (hit_transformed st) (mouse_point st x y) face
  | none => false

/-- The composition in the order of the source: the inverse of the orientation
is applied to `v` first, the half turn about Y second, then the scale. -/
def inverse_then_half_turn (q : Quat) (sc : ℚ) (v : Vec3) : Vec3 :=
  Vec3.scale (Quat.rotate Quat.angleAxis_pi_Y (Quat.rotate (Quat.inverse q) v)) sc

/-- The composition in the opposite order: the half turn about Y is applied to
`v` first, the inverse of the orientation second, then the scale. -/
def half_turn_then_inverse (q : Quat) (sc : ℚ) (v : Vec3) : Vec3 :=
  Vec3.scale (Quat.rotate (Quat.inverse q) (Quat.rotate Quat.angleAxis_pi_Y v)) sc

/-- The range held last element first is in non-increasing depth order. -/
def DescDepth (l : List VisibleFace) : Prop :=
  l.Pairwise (fun a b => b.depth ≤ a.depth)

/-- The array `s_xyz` of axis letters. -/
def s_xyz : List String := ["X", "Y", "Z"]

/-- The name built from a face's sign and axis: `+` or `-`, then the axis
letter of `s_xyz`. -/
def signed_axis_name (face : Face) : String :=
  (if face.positive then "+" else "-") ++ s_xyz.getD face.axis ""

/-- The order in which a stable ascending sort leaves two elements: `a` comes
before `b` when its depth is smaller, or the depths are equal and `a` has the
smaller face id (the smaller table index). -/
def StableBefore (a b : VisibleFace) : Prop :=
  a.depth < b.depth ∨ (a.depth = b.depth ∧ a.face.face_id < b.face.face_id)

/-! ## Colours -/

/-- The type `Color` of `util/color.hpp`, with its three channels. -/
structure Color where
  r : ℚ
  g : ℚ
  b : ℚ
  deriving DecidableEq, Repr

/-- The function `get_color`.  `Color::new_from_int` is declared in
`util/color.hpp`, outside these sources, and is taken as the parameter
`new_from_int`; `at(ax)` past the end of a table gives `none`. -/
def get_color (new_from_int : Nat → Nat → Nat → Color) (ax : Nat) (z : ℚ) : Option Color :=
  let ax_colors_pos : List Color :=
    [new_from_int 255 54 83, new_from_int 138 219 0, new_from_int 44 142 254]
  let ax_colors_neg : List Color :=
    [new_from_int 155 57 7, new_from_int 98 137 34, new_from_int 51 100 155]
  if z ≥ -1 / 1000 then ax_colors_pos[ax]? else ax_colors_neg[ax]?

/-- The expression `std::min(1.0f, c * 1.4f)` on one colour channel. -/
def brighten (c : ℚ) : ℚ := min 1 (c * (14 / 10))

/-- The colour `render` passes to `set_source_rgba` for a face: the colour of
`get_color`, with each channel brightened when the face is the hovered one. -/
def fill_color (new_from_int : Nat → Nat → Nat → Color) (m_hovered_face : Int)
    (face : Face) : Option Color :=
  match get_color new_from_int face.axis (if face.positive then 1 else -1) with
  | none => none
  | some color =>
    if m_hovered_face = face.face_id then
      some ⟨brighten color.r, brighten color.g, brighten color.b⟩
    else some color

/-- The fill colours of the drawing loop of `render`, in paint order. -/
def render_fill_colors (new_from_int : Nat → Nat → Nat → Color) (st : AxesLollipop)
    (w h : Int) : List (Option Color) :=
  (render_draw_order st w h).map (fun vf => fill_color new_from_int st.m_hovered_face vf.face)

/-! ## Geometry of the projected faces -/

/-- The power `2 ^ k` for an integer `k`. -/
def pow2 (k : Int) : ℚ :=
  if 0 ≤ k then ((2 ^ k.toNat : Nat) : ℚ) else 1 / ((2 ^ (-k).toNat : Nat) : ℚ)

/-- The number of halvings that bring `n` below 2, at most `fuel` of them:
the position of the leading bit of `n`. -/
def log2_fuel : Nat → Nat → Nat
  | 0, _ => 0
  | fuel + 1, n => if n < 2 then 0 else log2_fuel fuel (n / 2) + 1

/-- The integer `e` with `2 ^ e ≤ x < 2 ^ (e + 1)`, for `x > 0`. -/
def ilog2 (x : ℚ) : Int :=
  let e : Int := (log2_fuel x.num.natAbs x.num.natAbs : Int) - (log2_fuel x.den x.den : Int)
  if x < pow2 e then e - 1 else e

/-- Rounding to the nearest binary floating-point number with `p` significant
bits and smallest normal exponent `emin`, ties to even, with gradual
underflow and without overflow. -/
def round_to (p : Nat) (emin : Int) (x : ℚ) : ℚ :=
  if x = 0 then 0
  else
    let a : ℚ := if x < 0 then -x else x
    let e : Int := max (ilog2 a) emin
    let q : ℚ := pow2 (e - ((p : Int) - 1))
    let n : ℚ := a / q
    let fl : Nat := n.num.natAbs / n.den
    let rem : ℚ := n - (fl : ℚ)
    let r : Nat := if 1 / 2 < rem ∨ (rem = 1 / 2 ∧ fl % 2 = 1) then fl + 1 else fl
    (if x < 0 then -1 else 1) * ((r : ℚ) * q)

/-- The roundings and the two library values the source depends on: `rnd`
rounds a `float` result, `rnd_d` a `double` result, and `cos_half_pi`,
`sin_half_pi` are `glm::cos` and `glm::sin` of `glm::pi<float>() * 0.5f`. -/
structure Arith where
  rnd : ℚ → ℚ
  rnd_d : ℚ → ℚ
  cos_half_pi : ℚ
  sin_half_pi : ℚ

/-- Exact arithmetic: nothing is rounded, and the half turn is exact. -/
def Arith.exact : Arith := ⟨id, id, 0, 1⟩

/-- The arithmetic of the code: binary32 and binary64 rounding, and the
correctly rounded `cosf` and `sinf` of the binary32 `pi / 2`, which are
`-12303662 * 2 ^ -48` (about `-4.37e-8`) and `1`. -/
def Arith.binary32 : Arith :=
  ⟨round_to 24 (-126), round_to 53 (-1022), -12303662 / 281474976710656, 1⟩

/-- The `float` sum `a + b`. -/
def Fl.add (ar : Arith) (a b : ℚ) : ℚ := ar.rnd (a + b)

/-- The `float` difference `a - b`. -/
def Fl.sub (ar : Arith) (a b : ℚ) : ℚ := ar.rnd (a - b)

/-- The `float` product `a * b`. -/
def Fl.mul (ar : Arith) (a b : ℚ) : ℚ := ar.rnd (a * b)

/-- The `float` quotient `a / b`. -/
def Fl.div (ar : Arith) (a b : ℚ) : ℚ := ar.rnd (a / b)

/-- Componentwise `a - b` on `glm::vec3`. -/
def Fl.vsub (ar : Arith) (a b : Vec3) : Vec3 := ⟨sub ar a.x b.x, sub ar a.y b.y, sub ar a.z b.z⟩

/-- Componentwise `a + b` on `glm::vec3`. -/
def Fl.vadd (ar : Arith) (a b : Vec3) : Vec3 := ⟨add ar a.x b.x, add ar a.y b.y, add ar a.z b.z⟩

/-- The product `v * s` of a `glm::vec3` with a scalar. -/
def Fl.vscale (ar : Arith) (v : Vec3) (s : ℚ) : Vec3 := ⟨mul ar v.x s, mul ar v.y s, mul ar v.z s⟩

/-- The function `glm::cross`. -/
def Fl.cross (ar : Arith) (a b : Vec3) : Vec3 :=
  ⟨sub ar (mul ar a.y b.z) (mul ar b.y a.z), sub ar (mul ar a.z b.x) (mul ar b.z a.x),
   sub ar (mul ar a.x b.y) (mul ar b.x a.y)⟩

/-- The function `glm::dot` on quaternions:
`(a.w * b.w + a.x * b.x) + (a.y * b.y + a.z * b.z)`. -/
def Fl.dot (ar : Arith) (a b : Quat) : ℚ :=
  add ar (add ar (mul ar a.w b.w) (mul ar a.x b.x)) (add ar (mul ar a.y b.y) (mul ar a.z b.z))

/-- The function `glm::inverse`: `conjugate(q) / dot(q, q)`, componentwise. -/
def Fl.inverse (ar : Arith) (q : Quat) : Quat :=
  let c := Quat.conjugate q
  let d := dot ar q q
  ⟨div ar c.w d, div ar c.x d, div ar c.y d, div ar c.z d⟩

/-- The Hamilton product `p * q` of glm, evaluated left to right. -/
def Fl.qmul (ar : Arith) (p q : Quat) : Quat :=
  ⟨sub ar (sub ar (sub ar (mul ar p.w q.w) (mul ar p.x q.x)) (mul ar p.y q.y)) (mul ar p.z q.z),
   sub ar (add ar (add ar (mul ar p.w q.x) (mul ar p.x q.w)) (mul ar p.y q.z)) (mul ar p.z q.y),
   sub ar (add ar (add ar (mul ar p.w q.y) (mul ar p.y q.w)) (mul ar p.z q.x)) (mul ar p.x q.z),
   sub ar (add ar (add ar (mul ar p.w q.z) (mul ar p.z q.w)) (mul ar p.x q.y)) (mul ar p.y q.x)⟩

/-- The function `glm::rotate(q, v)`, glm's `q * v`:
`v + ((uv * q.w) + uuv) * 2`. -/
def Fl.rotate (ar : Arith) (q : Quat) (v : Vec3) : Vec3 :=
  let u : Vec3 := ⟨q.x, q.y, q.z⟩
  let uv := cross ar u v
  let uuv := cross ar u uv
  vadd ar v (vscale ar (vadd ar (vscale ar uv q.w) uuv) 2)

/-- The value of `glm::angleAxis(glm::pi<float>(), glm::vec3(0, 1, 0))`:
`qua(cos(a * 0.5), v * sin(a * 0.5))`. -/
def Fl.angleAxis_pi_Y (ar : Arith) : Quat :=
  ⟨ar.cos_half_pi, mul ar 0 ar.sin_half_pi, mul ar 1 ar.sin_half_pi, mul ar 0 ar.sin_half_pi⟩

/-- The constant `size`: the `double` 0.9 narrowed to `float` in `vertices`. -/
def Fl.size (ar : Arith) : ℚ := ar.rnd (ar.rnd_d (9 / 10))

/-- The array `vertices[8]`. -/
def Fl.vertices (ar : Arith) : List Vec3 :=
  [⟨-size ar, -size ar, -size ar⟩,
   ⟨ size ar, -size ar, -size ar⟩,
   ⟨ size ar,  size ar, -size ar⟩,
   ⟨-size ar,  size ar, -size ar⟩,
   ⟨-size ar, -size ar,  size ar⟩,
   ⟨ size ar, -size ar,  size ar⟩,
   ⟨ size ar,  size ar,  size ar⟩,
   ⟨-size ar,  size ar,  size ar⟩]

/-- The function `is_face_visible`. -/
def Fl.is_face_visible (ar : Arith) (v0 v1 v2 : Vec3) : Bool :=
  let edge1 := vsub ar v1 v0
  let edge2 := vsub ar v2 v0
  let normal := cross ar edge1 edge2
  decide (normal.z < 0)

/-- The expression `(std::min(w, h) / 2) - m_size`: an `int` halving, the
conversion of the result to `float`, then a `float` subtraction. -/
def Fl.scale_of (ar : Arith) (w h : Int) (m_size : ℚ) : ℚ :=
  sub ar (ar.rnd ((Int.tdiv (min w h) 2 : Int) : ℚ)) m_size

/-- The quaternion `corrected_view_quat`. -/
def Fl.corrected_view_quat (ar : Arith) (m_quat : Quat) : Quat :=
  qmul ar (angleAxis_pi_Y ar) (inverse ar m_quat)

/-- The loop filling `transformed[8]` from a vertex table. -/
def Fl.transform_all (ar : Arith) (m_quat : Quat) (sc : ℚ) (vs : List Vec3) : List Vec3 :=
  vs.map (fun v => vscale ar (rotate ar (corrected_view_quat ar m_quat) v) sc)

/-- The back-face test of one face on its first three transformed vertices. -/
def Fl.face_visible (ar : Arith) (transformed : List Vec3) (face : Face) : Bool :=
  is_face_visible ar (vertex_at transformed (face.vertex 0))
    (vertex_at transformed (face.vertex 1))
    (vertex_at transformed (face.vertex 2))

/-- The lambda `sign` of `get_face_at_position`. -/
def Fl.sign (ar : Arith) (p1 p2 p3 : Vec2) : ℚ :=
  sub ar (mul ar (sub ar p1.x p3.x) (sub ar p2.y p3.y))
    (mul ar (sub ar p2.x p3.x) (sub ar p1.y p3.y))

/-- The two-triangle test of the loop body: `in_tri1 || in_tri2`. -/
def Fl.point_in_quad (ar : Arith) (transformed : List Vec3) (face : Face) (p : Vec2) : Bool :=
  let v0 := vertex_at transformed (face.vertex 0)
  let v1 := vertex_at transformed (face.vertex 1)
  let v2 := vertex_at transformed (face.vertex 2)
  let v3 := vertex_at transformed (face.vertex 3)
  let p0 : Vec2 := ⟨v0.x, v0.y⟩
  let p1 : Vec2 := ⟨v1.x, v1.y⟩
  let p2 : Vec2 := ⟨v2.x, v2.y⟩
  let p3 : Vec2 := ⟨v3.x, v3.y⟩
  let d1 := sign ar p p0 p1
  let d2 := sign ar p p1 p2
  let d3 := sign ar p p2 p0
  let in_tri1 := (decide (d1 ≤ 0) && decide (d2 ≤ 0) && decide (d3 ≤ 0))
    || (decide (d1 ≥ 0) && decide (d2 ≥ 0) && decide (d3 ≥ 0))
  let e1 := sign ar p p0 p2
  let e2 := sign ar p p2 p3
  let e3 := sign ar p p3 p0
  let in_tri2 := (decide (e1 ≤ 0) && decide (e2 ≤ 0) && decide (e3 ≤ 0))
    || (decide (e1 ≥ 0) && decide (e2 ≥ 0) && decide (e3 ≥ 0))
  in_tri1 || in_tri2

/-- The loop `for (const auto &face : faces)` of `get_face_at_position`, with
the final `return -1`. -/
def Fl.hit_loop (ar : Arith) (transformed : List Vec3) (p : Vec2) : List Face → Int
  | [] => -1
  | face :: rest =>
    if !face_visible ar transformed face then hit_loop ar transformed p rest
    else if point_in_quad ar transformed face p then face.face_id
    else hit_loop ar transformed p rest

/-- The scale `sc` computed by `get_face_at_position`. -/
def Fl.hit_scale (ar : Arith) (st : AxesLollipop) : ℚ :=
  scale_of ar st.m_width st.m_height st.m_size

/-- The array `transformed` computed by `get_face_at_position`. -/
def Fl.hit_transformed (ar : Arith) (st : AxesLollipop) : List Vec3 :=
  transform_all ar st.m_quat (hit_scale ar st) (vertices ar)

/-- The point `(mouse_x, mouse_y)`: `x - m_width / 2.0f` is a `float` halving
of the converted width, a `double` subtraction, and a narrowing to `float`. -/
def Fl.mouse_point (ar : Arith) (st : AxesLollipop) (x y : ℚ) : Vec2 :=
  ⟨ar.rnd (ar.rnd_d (x - div ar (ar.rnd (st.m_width : ℚ)) 2)),
   ar.rnd (ar.rnd_d (y - div ar (ar.rnd (st.m_height : ℚ)) 2))⟩

/-- The method `AxesLollipop::get_face_at_position`. -/
def Fl.get_face_at_position (ar : Arith) (st : AxesLollipop) (x y : ℚ) : Int :=
  if st.m_width = 0 ∨ st.m_height = 0 then -1
  else hit_loop ar (hit_transformed ar st) (mouse_point ar st x y) faces

/-- The depth key `avg_z`: the z-components summed in order from `0`, then
divided by `4`. -/
def Fl.avg_z (ar : Arith) (transformed : List Vec3) (face : Face) : ℚ :=
  div ar (face.vertices.foldl (fun acc idx => add ar acc (vertex_at transformed idx).z) 0) 4

/-- The loop of `render` that fills `visible_faces` by `push_back`. -/
def Fl.collect_visible (ar : Arith) (transformed : List Vec3) : List Face → List VisibleFace
  | [] => []
  | face :: rest =>
    if face_visible ar transformed face then
      ⟨face, avg_z ar transformed face⟩ :: collect_visible ar transformed rest
    else collect_visible ar transformed rest

/-- The array `vertices[8]` of `render`, a second copy of the same literals. -/
def Fl.render_vertices (ar : Arith) : List Vec3 :=
  [⟨-size ar, -size ar, -size ar⟩,
   ⟨ size ar, -size ar, -size ar⟩,
   ⟨ size ar,  size ar, -size ar⟩,
   ⟨-size ar,  size ar, -size ar⟩,
   ⟨-size ar, -size ar,  size ar⟩,
   ⟨ size ar, -size ar,  size ar⟩,
   ⟨ size ar,  size ar,  size ar⟩,
   ⟨-size ar,  size ar,  size ar⟩]

/-- The array `transformed` computed by `render(cr, w, h)`. -/
def Fl.render_transformed (ar : Arith) (st : AxesLollipop) (w h : Int) : List Vec3 :=
  transform_all ar st.m_quat (scale_of ar w h st.m_size) (render_vertices ar)

/-- The vector `visible_faces` of `render` after `std::sort`. -/
def Fl.render_draw_order (ar : Arith) (st : AxesLollipop) (w h : Int) : List VisibleFace :=
  std_sort (collect_visible ar (render_transformed ar st w h) render_faces)

/-- The `signal_pressed` handler. -/
def Fl.on_pressed (ar : Arith) (st : AxesLollipop) (_n_press : Int) (x y : ℚ) :
    Option (AxesLollipop × List String) :=
  let face_id := get_face_at_position ar st x y
  if face_id ≥ 0 then
    match face_names[face_id.toNat]? with
    | some name => some (st, ["Clicked face: " ++ name])
    | none => none
  else some (st, [])

/-- The face is visible and its two-triangle test accepts the point. -/
def Fl.face_accepts (ar : Arith) (tr : List Vec3) (p : Vec2) (face : Face) : Bool :=
  face_visible ar tr face && point_in_quad ar tr face p

/-- The orientation (-0.19203801453113556, 0.9813874959945679,
-3.192720612332778e-07, 0) in the order (w, x, y, z): the +X and -X faces are
almost edge-on. -/
def near_edge_quat : Quat :=
  ⟨-12887453 / 67108864, 8232475 / 8388608, -11233387 / 35184372088832, 0⟩

/-- The orientation (-0.12291255593299866, 0.7017451524734497,
0.7017451524734497, 0) in the order (w, x, y, z): the diagonal of the +Z face
passes through the centre of the screen. -/
def diagonal_quat : Quat :=
  ⟨-4124261 / 33554432, 5886665 / 8388608, 5886665 / 8388608, 0⟩

/-- The orientation (-0.3703262209892273, 0.7401762008666992,
-0.32722076773643494, -0.4559870660305023) in the order (w, x, y, z). -/
def overlap_quat : Quat :=
  ⟨-6213043 / 16777216, 776131 / 1048576, -10979707 / 33554432, -15300387 / 33554432⟩

/-! ## Lemmas on the hit-test loop -/

theorem hit_guard (st : AxesLollipop) (x y : ℚ) (h : st.m_width = 0 ∨ st.m_height = 0) :
    get_face_at_position st x y = -1 := by
  simp [get_face_at_position, h]

theorem hit_loop_eq_find (tr : List Vec3) (p : Vec2) (l : List Face) :
    hit_loop tr p l =
      match l.find? (face_accepts tr p) with
      | some face => face.face_id
      | none => -1 := by
  induction l with
  | nil => rfl
  | cons face rest ih =>
    by_cases hv : face_visible tr face = true
    · by_cases hp : point_in_quad tr face p = true
      · simp [hit_loop, List.find?, hv, hp, face_accepts]
      · simp [hit_loop, List.find?, hv, hp, ih, face_accepts]
    · simp [hit_loop, List.find?, hv, ih, face_accepts]

theorem find_six (P : Face → Bool) (f0 f1 f2 f3 f4 f5 : Face) :
    (match [f0, f1, f2, f3, f4, f5].find? P with
      | some face => face.face_id
      | none => (-1 : Int)) =
      if P f0 then f0.face_id else if P f1 then f1.face_id
      else if P f2 then f2.face_id else if P f3 then f3.face_id
      else if P f4 then f4.face_id else if P f5 then f5.face_id else -1 := by
  cases h0 : P f0 <;> cases h1 : P f1 <;> cases h2 : P f2 <;> cases h3 : P f3 <;>
    cases h4 : P f4 <;> cases h5 : P f5 <;> simp [List.find?, h0, h1, h2, h3, h4, h5]

theorem get_face_eq_cascade (st : AxesLollipop) (x y : ℚ)
    (h : ¬ (st.m_width = 0 ∨ st.m_height = 0)) :
    get_face_at_position st x y =
      if face_hit st x y 0 then 0 else if face_hit st x y 1 then 1
      else if face_hit st x y 2 then 2 else if face_hit st x y 3 then 3
      else if face_hit st x y 4 then 4 else if face_hit st x y 5 then 5 else -1 := by
  simp only [get_face_at_position, if_neg h, hit_loop_eq_find, faces, find_six]
  rfl

theorem faces_id_of_get (i : Nat) (face : Face) (h : faces[i]? = some face) :
    face.face_id = (i : Int) := by
  have hi : i < 6 := by
    by_contra hc
    have : faces[i]? = none := List.getElem?_eq_none (by simpa [faces] using hc)
    simp [this] at h
  interval_cases i <;> simp [faces] at h <;> subst h <;> rfl

theorem face_hit_elim (st : AxesLollipop) (x y : ℚ) (i : Nat) (h : face_hit st x y i = true) :
    ∃ face, faces[i]? = some face ∧ face.face_id = (i : Int) ∧
      face_visible (hit_transformed st) face = true ∧
      point_in_quad (hit_transformed st) face (mouse_point st x y) = true := by
  unfold face_hit at h
  cases hg : faces[i]? with
  | none => simp [hg] at h
  | some face =>
    simp only [hg, face_accepts, Bool.and_eq_true] at h
    exact ⟨face, rfl, faces_id_of_get i face hg, h.1, h.2⟩

theorem cascade_first (B : Nat → Bool) :
    (∀ i : Nat, i < 6 →
      ((if B 0 then (0 : Int) else if B 1 then 1 else if B 2 then 2 else if B 3 then 3
          else if B 4 then 4 else if B 5 then 5 else -1) = (i : Int) ↔
        B i = true ∧ ∀ j : Nat, j < i → B j = false)) ∧
      ((if B 0 then (0 : Int) else if B 1 then 1 else if B 2 then 2 else if B 3 then 3
          else if B 4 then 4 else if B 5 then 5 else -1) = -1 ↔
        ∀ i : Nat, i < 6 → B i = false) := by
  constructor
  · intro i hi
    interval_cases i <;> simp only [Nat.forall_lt_succ, Nat.not_lt_zero, false_imp_iff,
      implies_true, true_and] <;>
    generalize B 0 = b0 <;> generalize B 1 = b1 <;> generalize B 2 = b2 <;>
    generalize B 3 = b3 <;> generalize B 4 = b4 <;> generalize B 5 = b5 <;>
    revert b0 b1 b2 b3 b4 b5 <;> decide
  · simp only [Nat.forall_lt_succ, Nat.not_lt_zero, false_imp_iff, implies_true, true_and]
    generalize B 0 = b0
    generalize B 1 = b1
    generalize B 2 = b2
    generalize B 3 = b3
    generalize B 4 = b4
    generalize B 5 = b5
    revert b0 b1 b2 b3 b4 b5
    decide

/-! ## The identity orientation -/

theorem scale_200 (m : ℚ) : scale_of 200 200 m = 100 - m := by
  simp [scale_of, Int.tdiv]

theorem transformed_identity (sc : ℚ) :
    transform_all Quat.identity sc vertices =
      [⟨size * sc, -size * sc, size * sc⟩, ⟨-size * sc, -size * sc, size * sc⟩,
       ⟨-size * sc, size * sc, size * sc⟩, ⟨size * sc, size * sc, size * sc⟩,
       ⟨size * sc, -size * sc, -size * sc⟩, ⟨-size * sc, -size * sc, -size * sc⟩,
       ⟨-size * sc, size * sc, -size * sc⟩, ⟨size * sc, size * sc, -size * sc⟩] := by
  simp only [transform_all, vertices, corrected_view_quat, Quat.identity, Quat.inverse,
    Quat.mul, Quat.angleAxis_pi_Y, Quat.conjugate, Quat.dot, Quat.rotate, Vec3.add, Vec3.scale,
    Vec3.cross, List.map, List.cons.injEq, Vec3.mk.injEq, and_true]
  norm_num
  repeat' constructor
  all_goals ring

theorem visible_identity (sc : ℚ) (hsc : 0 < sc) :
    faces.map (face_visible (transform_all Quat.identity sc vertices)) =
      [false, false, false, false, false, true] := by
  have h2 : 0 < sc * sc := mul_pos hsc hsc
  rw [transformed_identity]
  simp only [faces, List.map, face_visible, Face.vertex, vertex_at, List.getD_cons_zero,
    List.getD_cons_succ, is_face_visible, Vec3.sub, Vec3.cross, size, List.cons.injEq,
    decide_eq_false_iff_not, decide_eq_true_eq, and_true, not_lt]
  refine ⟨?_, ?_, ?_, ?_, ?_, ?_⟩ <;> nlinarith

theorem point_in_quad_identity (sc : ℚ) :
    point_in_quad (transform_all Quat.identity sc vertices)
      ⟨[0, 1, 2, 3], 2, "-Z", false, 5⟩ ⟨0, 0⟩ = true := by
  have h2 : 0 ≤ sc * sc := mul_self_nonneg sc
  rw [transformed_identity]
  simp only [point_in_quad, Face.vertex, vertex_at, List.getD_cons_zero,
    List.getD_cons_succ, sign, size, Bool.or_eq_true, Bool.and_eq_true, decide_eq_true_eq]
  left; left
  refine ⟨⟨?_, ?_⟩, ?_⟩ <;> nlinarith

theorem hit_identity_center (st : AxesLollipop) (hq : st.m_quat = Quat.identity)
    (hw : st.m_width = 200) (hh : st.m_height = 200) (hs : 0 < 100 - st.m_size) :
    get_face_at_position st 100 100 = 5 := by
  have hz : ¬ (st.m_width = 0 ∨ st.m_height = 0) := by rw [hw, hh]; decide
  have htr : hit_transformed st = transform_all Quat.identity (100 - st.m_size) vertices := by
    simp only [hit_transformed, hit_scale, hq, hw, hh, scale_200]
  have hp : mouse_point st 100 100 = ⟨0, 0⟩ := by
    simp only [mouse_point, hit_origin, hw, hh]
    norm_num
  have hv := visible_identity (100 - st.m_size) hs
  simp only [faces, List.map, List.cons.injEq, and_true] at hv
  obtain ⟨h0, h1, h2, h3, h4, h5⟩ := hv
  have hpq := point_in_quad_identity (100 - st.m_size)
  rw [get_face_eq_cascade st 100 100 hz]
  simp [face_hit, faces, face_accepts, htr, hp, h0, h1, h2, h3, h4, h5, hpq]

theorem half_turn_apply (v : Vec3) : Quat.rotate Quat.angleAxis_pi_Y v = ⟨-v.x, v.y, -v.z⟩ := by
  simp only [Quat.rotate, Quat.angleAxis_pi_Y, Vec3.add, Vec3.scale, Vec3.cross, Vec3.mk.injEq]
  refine ⟨?_, ?_, ?_⟩ <;> ring

theorem rotate_corrected (q : Quat) (sc : ℚ) (v : Vec3) (hq : Quat.dot q q = 1) :
    Vec3.scale (Quat.rotate (corrected_view_quat q) v) sc = inverse_then_half_turn q sc v := by
  have hn : q.x * q.x + q.y * q.y + q.z * q.z + q.w * q.w = 1 := hq
  simp only [inverse_then_half_turn, half_turn_apply, corrected_view_quat, Quat.inverse, hq,
    div_one, Quat.conjugate, Quat.mul, Quat.angleAxis_pi_Y, Quat.rotate, Vec3.add, Vec3.scale,
    Vec3.cross, Vec3.mk.injEq]
  refine ⟨?_, ?_, ?_⟩
  · linear_combination (-2 * v.x * sc) * hn
  · ring
  · linear_combination (-2 * v.z * sc) * hn

/-! ## The visible faces of `render` -/

theorem collect_visible_faces (tr : List Vec3) (l : List Face) :
    (collect_visible tr l).map VisibleFace.face = l.filter (face_visible tr) := by
  induction l with
  | nil => rfl
  | cons face rest ih =>
    by_cases hv : face_visible tr face = true
    · simp [collect_visible, List.filter, hv, ih]
    · simp [collect_visible, List.filter, hv, ih]

theorem collect_visible_depth (tr : List Vec3) (l : List Face) (vf : VisibleFace)
    (h : vf ∈ collect_visible tr l) : vf.depth = avg_z tr vf.face := by
  induction l with
  | nil => simp [collect_visible] at h
  | cons face rest ih =>
    by_cases hv : face_visible tr face = true
    · simp only [collect_visible, hv, if_true, List.mem_cons] at h
      rcases h with h | h
      · subst h; rfl
      · exact ih h
    · simp only [collect_visible, hv, Bool.false_eq_true, if_false] at h
      exact ih h

theorem render_faces_nodup : render_faces.Nodup := by
  refine List.Nodup.of_map Face.face_id ?_
  simp only [render_faces, List.map]
  decide

theorem avg_z_four (tr : List Vec3) (face : Face) (hf : face ∈ render_faces) :
    avg_z tr face =
      ((vertex_at tr (face.vertex 0)).z + (vertex_at tr (face.vertex 1)).z
        + (vertex_at tr (face.vertex 2)).z + (vertex_at tr (face.vertex 3)).z) / 4 := by
  simp only [render_faces, List.mem_cons, List.mem_singleton, List.not_mem_nil, or_false] at hf
  rcases hf with h | h | h | h | h | h <;> subst h <;>
    simp only [avg_z, List.foldl, Face.vertex, List.getD_cons_zero, List.getD_cons_succ,
      zero_add]

theorem origins_agree_even (st : AxesLollipop) (a b : Int) :
    hit_origin (render st (2 * a) (2 * b)) = render_origin (2 * a) (2 * b) := by
  simp [hit_origin, render, render_origin, Int.mul_tdiv_cancel_left]

/-! ## The sort of `render` -/

theorem unguarded_linear_insert_perm (val : VisibleFace) (l : List VisibleFace) :
    (unguarded_linear_insert val l).Perm (val :: l) := by
  induction l with
  | nil => exact List.Perm.refl _
  | cons next rest ih =>
    by_cases hlt : depth_less val next = true
    · simp only [unguarded_linear_insert, hlt, if_true]
      exact (List.Perm.cons next ih).trans (List.Perm.swap val next rest)
    · simp only [unguarded_linear_insert, hlt, Bool.false_eq_true, if_false]
      exact List.Perm.refl _

theorem insertion_step_perm (acc : List VisibleFace) (val : VisibleFace) :
    (insertion_step acc val).Perm (val :: acc) := by
  unfold insertion_step
  cases hl : acc.getLast? with
  | none =>
    have : acc = [] := List.getLast?_eq_none_iff.mp hl
    simp [this]
  | some first =>
    by_cases hlt : depth_less val first = true
    · simp only [hlt, if_true]
      exact List.perm_append_singleton val acc
    · simp only [hlt, Bool.false_eq_true, if_false]
      exact unguarded_linear_insert_perm val acc

theorem foldl_insertion_step_perm (xs acc : List VisibleFace) :
    (xs.foldl insertion_step acc).Perm (xs ++ acc) := by
  induction xs generalizing acc with
  | nil => exact List.Perm.refl _
  | cons x rest ih =>
    simp only [List.foldl_cons, List.cons_append]
    refine (ih (insertion_step acc x)).trans ?_
    refine ((insertion_step_perm acc x).append_left rest).trans ?_
    exact List.perm_middle

theorem std_sort_perm (xs : List VisibleFace) : (std_sort xs).Perm xs := by
  unfold std_sort
  refine (List.reverse_perm _).trans ?_
  simpa using foldl_insertion_step_perm xs []

theorem unguarded_linear_insert_desc (val : VisibleFace) (l : List VisibleFace)
    (hl : DescDepth l) : DescDepth (unguarded_linear_insert val l) := by
  induction l with
  | nil => simp [unguarded_linear_insert, DescDepth]
  | cons next rest ih =>
    have hrest : DescDepth rest := (List.pairwise_cons.mp hl).2
    have hnext : ∀ b ∈ rest, b.depth ≤ next.depth := (List.pairwise_cons.mp hl).1
    by_cases hlt : depth_less val next = true
    · simp only [unguarded_linear_insert, hlt, if_true]
      have hvn : val.depth < next.depth := by simpa [depth_less] using hlt
      refine List.pairwise_cons.mpr ⟨?_, ih hrest⟩
      intro b hb
      have hb2 : b ∈ val :: rest := (unguarded_linear_insert_perm val rest).subset hb
      rcases List.mem_cons.mp hb2 with h | h
      · rw [h]; exact le_of_lt hvn
      · exact hnext b h
    · simp only [unguarded_linear_insert, hlt, Bool.false_eq_true, if_false]
      have hvn : next.depth ≤ val.depth := by simpa [depth_less] using hlt
      refine List.pairwise_cons.mpr ⟨?_, hl⟩
      intro b hb
      rcases List.mem_cons.mp hb with h | h
      · rw [h]; exact hvn
      · exact le_trans (hnext b h) hvn

theorem insertion_step_desc (acc : List VisibleFace) (val : VisibleFace)
    (hacc : DescDepth acc) : DescDepth (insertion_step acc val) := by
  unfold insertion_step
  cases hl : acc.getLast? with
  | none => simp [DescDepth]
  | some first =>
    by_cases hlt : depth_less val first = true
    · simp only [hlt, if_true]
      have hvf : val.depth < first.depth := by simpa [depth_less] using hlt
      obtain ⟨front, hfront⟩ : ∃ front, acc = front ++ [first] := by
        rcases List.eq_nil_or_concat acc with h | ⟨l, b, h⟩
        · simp [h] at hl
        · refine ⟨l, ?_⟩
          rw [h] at hl
          simp at hl
          rw [h, hl]
          simp
      unfold DescDepth at hacc ⊢
      rw [List.pairwise_append]
      refine ⟨hacc, List.pairwise_singleton _ _, ?_⟩
      intro a ha b hb
      rw [List.mem_singleton.mp hb]
      rw [hfront] at hacc ha
      rcases List.mem_append.mp ha with h | h
      · have := (List.pairwise_append.mp hacc).2.2 a h first (List.mem_singleton.mpr rfl)
        exact le_of_lt (lt_of_lt_of_le hvf this)
      · rw [List.mem_singleton.mp h]; exact le_of_lt hvf
    · simp only [hlt, Bool.false_eq_true, if_false]
      exact unguarded_linear_insert_desc val acc hacc

theorem foldl_insertion_step_desc (xs acc : List VisibleFace) (hacc : DescDepth acc) :
    DescDepth (xs.foldl insertion_step acc) := by
  induction xs generalizing acc with
  | nil => exact hacc
  | cons x rest ih => exact ih _ (insertion_step_desc acc x hacc)

theorem std_sort_sorted (xs : List VisibleFace) :
    (std_sort xs).Pairwise (fun a b => a.depth ≤ b.depth) := by
  unfold std_sort
  rw [List.pairwise_reverse]
  exact foldl_insertion_step_desc xs [] List.Pairwise.nil

/-! ## Hit-test properties -/

/-- C1: when the hit-test returns a face id `f ≥ 0`, the table entry at index
`f` has id `f` and passes `is_face_visible` on its first three transformed
vertices, under the same orientation and scale. -/
theorem hit_face_is_visible (st : AxesLollipop) (x y : ℚ)
    (h : 0 ≤ get_face_at_position st x y) :
    ∃ face, faces[(get_face_at_position st x y).toNat]? = some face ∧
      face.face_id = get_face_at_position st x y ∧
      is_face_visible (vertex_at (hit_transformed st) (face.vertex 0))
        (vertex_at (hit_transformed st) (face.vertex 1))
        (vertex_at (hit_transformed st) (face.vertex 2)) = true := by
  by_cases hz : st.m_width = 0 ∨ st.m_height = 0
  · rw [hit_guard st x y hz] at h
    exact absurd h (by decide)
  · rw [get_face_eq_cascade st x y hz] at h ⊢
    have key : ∀ i : Nat, face_hit st x y i = true →
        ∃ face, faces[((i : Int)).toNat]? = some face ∧ face.face_id = (i : Int) ∧
          is_face_visible (vertex_at (hit_transformed st) (face.vertex 0))
            (vertex_at (hit_transformed st) (face.vertex 1))
            (vertex_at (hit_transformed st) (face.vertex 2)) = true := by
      intro i hi
      obtain ⟨face, h1, h2, h3, _⟩ := face_hit_elim st x y i hi
      exact ⟨face, by simpa using h1, h2, h3⟩
    by_cases h0 : face_hit st x y 0 = true
    · simpa [h0] using key 0 h0
    by_cases h1 : face_hit st x y 1 = true
    · simpa [h0, h1] using key 1 h1
    by_cases h2 : face_hit st x y 2 = true
    · simpa [h0, h1, h2] using key 2 h2
    by_cases h3 : face_hit st x y 3 = true
    · simpa [h0, h1, h2, h3] using key 3 h3
    by_cases h4 : face_hit st x y 4 = true
    · simpa [h0, h1, h2, h3, h4] using key 4 h4
    by_cases h5 : face_hit st x y 5 = true
    · simpa [h0, h1, h2, h3, h4, h5] using key 5 h5
    · simp [h0, h1, h2, h3, h4, h5] at h

theorem hit_face_is_visible_witness :
    0 ≤ get_face_at_position ⟨Quat.identity, 5, -1, 0, 0, 200, 200⟩ 100 100 ∧
      ∃ face, faces[(get_face_at_position
          ⟨Quat.identity, 5, -1, 0, 0, 200, 200⟩ 100 100).toNat]? = some face ∧
        face.face_id = get_face_at_position ⟨Quat.identity, 5, -1, 0, 0, 200, 200⟩ 100 100 ∧
        is_face_visible
          (vertex_at (hit_transformed ⟨Quat.identity, 5, -1, 0, 0, 200, 200⟩) (face.vertex 0))
          (vertex_at (hit_transformed ⟨Quat.identity, 5, -1, 0, 0, 200, 200⟩) (face.vertex 1))
          (vertex_at (hit_transformed ⟨Quat.identity, 5, -1, 0, 0, 200, 200⟩) (face.vertex 2))
          = true :=
  have h : 0 ≤ get_face_at_position ⟨Quat.identity, 5, -1, 0, 0, 200, 200⟩ 100 100 := by
    rw [hit_identity_center ⟨Quat.identity, 5, -1, 0, 0, 200, 200⟩ rfl rfl rfl (by norm_num)]
    decide
  ⟨h, hit_face_is_visible _ 100 100 h⟩

/-- C2: with a non-zero stored viewport, the hit-test returns `i` exactly when
the face at table index `i` is visible and accepts the centred point while no
face at a smaller index does, and returns -1 exactly when no visible face
accepts the point. -/
theorem hit_first_in_table_order (st : AxesLollipop) (x y : ℚ)
    (hw : st.m_width ≠ 0) (hh : st.m_height ≠ 0) :
    (∀ i : Nat, i < 6 → (get_face_at_position st x y = (i : Int) ↔
        face_hit st x y i = true ∧ ∀ j : Nat, j < i → face_hit st x y j = false)) ∧
      (get_face_at_position st x y = -1 ↔ ∀ i : Nat, i < 6 → face_hit st x y i = false) := by
  have hz : ¬ (st.m_width = 0 ∨ st.m_height = 0) := by tauto
  rw [get_face_eq_cascade st x y hz]
  exact cascade_first (face_hit st x y)

theorem hit_first_in_table_order_witness :
    (200 : Int) ≠ 0 ∧
      (get_face_at_position ⟨Quat.identity, 5, -1, 0, 0, 200, 200⟩ 100 100 = ((5 : Nat) : Int) ↔
        face_hit ⟨Quat.identity, 5, -1, 0, 0, 200, 200⟩ 100 100 5 = true ∧
          ∀ j : Nat, j < 5 →
            face_hit ⟨Quat.identity, 5, -1, 0, 0, 200, 200⟩ 100 100 j = false) :=
  ⟨by decide,
    (hit_first_in_table_order ⟨Quat.identity, 5, -1, 0, 0, 200, 200⟩ 100 100
      (by decide) (by decide)).1 5 (by decide)⟩

/-! ## Visibility and tables -/

/-- C4: the two face tables and the two vertex tables are identical, the entry
at index `i` has face id `i`, and the ids map one-to-one onto the six
(axis, sign) pairs as 0=+X, 1=-X, 2=+Y, 3=-Y, 4=+Z, 5=-Z. -/
theorem face_tables_bijection :
    render_faces = faces ∧ render_vertices = vertices ∧
      faces.map Face.face_id = [0, 1, 2, 3, 4, 5] ∧
      faces.map (fun f => (f.face_id, f.axis, f.positive)) =
        [(0, 0, true), (1, 0, false), (2, 1, true), (3, 1, false), (4, 2, true),
          (5, 2, false)] ∧
      (∀ ax : Nat, ax < 3 → ∀ sgn : Bool,
        ∃! f : Face, f ∈ faces ∧ f.axis = ax ∧ f.positive = sgn) ∧
      (∀ f : Face, f ∈ faces → f.axis < 3) := by
  refine ⟨rfl, rfl, rfl, rfl, ?_, ?_⟩
  · intro ax hax sgn
    have huniq : ∀ f g : Face, f ∈ faces → g ∈ faces → f.axis = g.axis →
        f.positive = g.positive → g = f := by
      intro f g hf hg
      simp only [faces, List.mem_cons, List.mem_singleton, List.not_mem_nil, or_false] at hf hg
      rcases hf with h | h | h | h | h | h <;> rcases hg with h2 | h2 | h2 | h2 | h2 | h2 <;>
        subst h <;> subst h2 <;> intro ha hs <;>
        first | rfl | exact absurd ha (by decide) | exact absurd hs (by decide)
    have hex : ∃ f : Face, f ∈ faces ∧ f.axis = ax ∧ f.positive = sgn := by
      interval_cases ax <;> cases sgn
      · exact ⟨⟨[4, 0, 3, 7], 0, "-X", false, 1⟩, by simp [faces], rfl, rfl⟩
      · exact ⟨⟨[1, 5, 6, 2], 0, "X", true, 0⟩, by simp [faces], rfl, rfl⟩
      · exact ⟨⟨[4, 5, 1, 0], 1, "-Y", false, 3⟩, by simp [faces], rfl, rfl⟩
      · exact ⟨⟨[3, 2, 6, 7], 1, "Y", true, 2⟩, by simp [faces], rfl, rfl⟩
      · exact ⟨⟨[0, 1, 2, 3], 2, "-Z", false, 5⟩, by simp [faces], rfl, rfl⟩
      · exact ⟨⟨[5, 4, 7, 6], 2, "Z", true, 4⟩, by simp [faces], rfl, rfl⟩
    obtain ⟨f, hf, ha, hs⟩ := hex
    exact ⟨f, ⟨hf, ha, hs⟩, fun g hg => huniq f g hf hg.1 (ha.trans hg.2.1.symm)
      (hs.trans hg.2.2.symm)⟩
  · intro f hf
    simp only [faces, List.mem_cons, List.mem_singleton, List.not_mem_nil, or_false] at hf
    rcases hf with h | h | h | h | h | h <;> subst h <;> decide

/-- C5: with a stored viewport width of 0 or height of 0, the hit-test returns
-1 for every pointer position and every orientation. -/
theorem hit_zero_viewport (st : AxesLollipop) (x y : ℚ)
    (h : st.m_width = 0 ∨ st.m_height = 0) :
    get_face_at_position st x y = -1 :=
  hit_guard st x y h

theorem hit_zero_viewport_witness :
    (AxesLollipop.initial Quat.identity 5).m_width = 0 ∧
      get_face_at_position (AxesLollipop.initial Quat.identity 5) 100 100 = -1 :=
  ⟨rfl, hit_zero_viewport (AxesLollipop.initial Quat.identity 5) 100 100 (Or.inl rfl)⟩

/-! ## Scenario at the identity orientation -/

/-- C7 (evaluation at the failing input): after `render` with an odd viewport
101x101 the drawing origin is (50, 50) while the hit-test frame is centred on
(101/2, 101/2); at identity orientation with margin 5 the pointer (363/4, 50)
is reported as a hit on face 5 although it lies outside the quad of face 5 as
drawn, and the pointer (39/4, 50) lies inside the drawn quad and is reported as
no face. -/
theorem hit_frame_offset_odd :
    render_origin 101 101 = ⟨50, 50⟩ ∧
      hit_origin (render ⟨Quat.identity, 5, -1, 0, 0, 0, 0⟩ 101 101) = ⟨101 / 2, 101 / 2⟩ ∧
      get_face_at_position (render ⟨Quat.identity, 5, -1, 0, 0, 0, 0⟩ 101 101) (363 / 4) 50
        = 5 ∧
      point_in_quad (render_transformed ⟨Quat.identity, 5, -1, 0, 0, 0, 0⟩ 101 101)
        ⟨[0, 1, 2, 3], 2, "-Z", false, 5⟩
        ⟨363 / 4 - (render_origin 101 101).x, 50 - (render_origin 101 101).y⟩ = false ∧
      get_face_at_position (render ⟨Quat.identity, 5, -1, 0, 0, 0, 0⟩ 101 101) (39 / 4) 50
        = -1 ∧
      point_in_quad (render_transformed ⟨Quat.identity, 5, -1, 0, 0, 0, 0⟩ 101 101)
        ⟨[0, 1, 2, 3], 2, "-Z", false, 5⟩
        ⟨39 / 4 - (render_origin 101 101).x, 50 - (render_origin 101 101).y⟩ = true := by
  have hsc : scale_of 101 101 5 = 45 := by
    simp [scale_of, Int.tdiv]
    norm_num
  have ho : render_origin 101 101 = ⟨50, 50⟩ := by
    simp [render_origin, Int.tdiv]
  have htr : render_transformed ⟨Quat.identity, 5, -1, 0, 0, 0, 0⟩ 101 101 =
      transform_all Quat.identity 45 vertices := by
    simp only [render_transformed, render_scale, hsc]
    rfl
  have htr2 : hit_transformed (render ⟨Quat.identity, 5, -1, 0, 0, 0, 0⟩ 101 101) =
      transform_all Quat.identity 45 vertices := by
    simp only [hit_transformed, hit_scale, render, hsc]
  have hz : ¬ ((render ⟨Quat.identity, 5, -1, 0, 0, 0, 0⟩ 101 101).m_width = 0
      ∨ (render ⟨Quat.identity, 5, -1, 0, 0, 0, 0⟩ 101 101).m_height = 0) := by
    simp [render]
  have hv := visible_identity 45 (by norm_num)
  simp only [faces, List.map, List.cons.injEq, and_true] at hv
  obtain ⟨h0, h1, h2, h3, h4, h5⟩ := hv
  refine ⟨ho, ?_, ?_, ?_, ?_, ?_⟩
  · simp only [hit_origin, render]
    norm_num
  · rw [get_face_eq_cascade _ _ _ hz]
    have hpq : point_in_quad (transform_all Quat.identity 45 vertices)
        ⟨[0, 1, 2, 3], 2, "-Z", false, 5⟩
        (mouse_point (render ⟨Quat.identity, 5, -1, 0, 0, 0, 0⟩ 101 101) (363 / 4) 50)
        = true := by
      rw [transformed_identity]
      simp only [point_in_quad, Face.vertex, vertex_at, List.getD_cons_zero,
        List.getD_cons_succ, sign, size, mouse_point, hit_origin, render]
      norm_num
    simp [face_hit, faces, face_accepts, htr2, h0, h1, h2, h3, h4, h5, hpq]
  · rw [htr, ho, transformed_identity]
    simp only [point_in_quad, Face.vertex, vertex_at, List.getD_cons_zero,
      List.getD_cons_succ, sign, size]
    norm_num
  · rw [get_face_eq_cascade _ _ _ hz]
    have hpq : point_in_quad (transform_all Quat.identity 45 vertices)
        ⟨[0, 1, 2, 3], 2, "-Z", false, 5⟩
        (mouse_point (render ⟨Quat.identity, 5, -1, 0, 0, 0, 0⟩ 101 101) (39 / 4) 50)
        = false := by
      rw [transformed_identity]
      simp only [point_in_quad, Face.vertex, vertex_at, List.getD_cons_zero,
        List.getD_cons_succ, sign, size, mouse_point, hit_origin, render]
      norm_num
    simp [face_hit, faces, face_accepts, htr2, h0, h1, h2, h3, h4, h5, hpq]
  · rw [htr, ho, transformed_identity]
    simp only [point_in_quad, Face.vertex, vertex_at, List.getD_cons_zero,
      List.getD_cons_succ, sign, size]
    norm_num

/-- C8: `render(w, h)` stores `w` and `h` and keeps the orientation and the
label margin, and the hit-test that follows computes the same scale, the same
8 transformed vertices and the same visible faces as that `render`. -/
theorem render_hit_shared_geometry (st : AxesLollipop) (w h : Int) :
    (render st w h).m_width = w ∧ (render st w h).m_height = h ∧
      (render st w h).m_quat = st.m_quat ∧ (render st w h).m_size = st.m_size ∧
      hit_scale (render st w h) = render_scale st w h ∧
      hit_transformed (render st w h) = render_transformed st w h ∧
      (hit_transformed (render st w h)).length = 8 ∧
      faces.filter (face_visible (hit_transformed (render st w h))) =
        (render_visible_faces st w h).map VisibleFace.face := by
  refine ⟨rfl, rfl, rfl, rfl, rfl, rfl, ?_, ?_⟩
  · simp [hit_transformed, transform_all, vertices]
  · rw [render_visible_faces, collect_visible_faces]
    rfl

/-- C9 (as amended): for a unit quaternion, each transformed vertex is the
scale times the canonical vertex to which the inverse of the orientation is
applied first and the half turn about Y second. -/
theorem transform_composition (q : Quat) (sc : ℚ) (hq : Quat.dot q q = 1) :
    transform_all q sc vertices = vertices.map (inverse_then_half_turn q sc) ∧
      ∀ i : Nat, i < 8 →
        vertex_at (transform_all q sc vertices) i =
          inverse_then_half_turn q sc (vertex_at vertices i) := by
  have hmap : transform_all q sc vertices = vertices.map (inverse_then_half_turn q sc) := by
    unfold transform_all
    exact List.map_congr_left (fun v _ => rotate_corrected q sc v hq)
  refine ⟨hmap, ?_⟩
  intro i hi
  rw [hmap]
  interval_cases i <;> rfl

theorem transform_composition_witness :
    Quat.dot ⟨3/5, 4/5, 0, 0⟩ ⟨3/5, 4/5, 0, 0⟩ = 1 ∧
      transform_all ⟨3/5, 4/5, 0, 0⟩ 1 vertices =
        vertices.map (inverse_then_half_turn ⟨3/5, 4/5, 0, 0⟩ 1) :=
  ⟨by norm_num [Quat.dot],
    (transform_composition ⟨3/5, 4/5, 0, 0⟩ 1 (by norm_num [Quat.dot])).1⟩

/-- C9 (counterexample): for the unit quaternion (3/5, 4/5, 0, 0) and scale 1,
the transformed vertex 0 is not the vertex turned about Y first and rotated by
the inverse orientation second. -/
theorem transform_order_counterexample :
    Quat.dot ⟨3/5, 4/5, 0, 0⟩ ⟨3/5, 4/5, 0, 0⟩ = 1 ∧
      vertex_at (transform_all ⟨3/5, 4/5, 0, 0⟩ 1 vertices) 0 ≠
        half_turn_then_inverse ⟨3/5, 4/5, 0, 0⟩ 1 (vertex_at vertices 0) := by
  refine ⟨by norm_num [Quat.dot], ?_⟩
  simp only [transform_all, vertices, List.map, vertex_at, List.getD_cons_zero,
    half_turn_then_inverse, half_turn_apply, corrected_view_quat, Quat.inverse, Quat.dot,
    Quat.conjugate, Quat.mul, Quat.angleAxis_pi_Y, Quat.rotate, Vec3.add, Vec3.scale,
    Vec3.cross, size, ne_eq, Vec3.mk.injEq]
  norm_num

/-! ## Paint order -/

/-- C10: the faces `render` draws are a permutation of the table entries that
pass the back-face test, each drawn once, in non-decreasing order of depth key,
and the depth key of a drawn face is the average of the z-components of its 4
transformed vertices. -/
theorem paint_order (st : AxesLollipop) (w h : Int) :
    ((render_draw_order st w h).map VisibleFace.face).Perm
        (render_faces.filter (face_visible (render_transformed st w h))) ∧
      ((render_draw_order st w h).map VisibleFace.face).Nodup ∧
      (render_draw_order st w h).Pairwise (fun a b => a.depth ≤ b.depth) ∧
      ∀ vf : VisibleFace, vf ∈ render_draw_order st w h →
        vf.depth =
          ((vertex_at (render_transformed st w h) (vf.face.vertex 0)).z
            + (vertex_at (render_transformed st w h) (vf.face.vertex 1)).z
            + (vertex_at (render_transformed st w h) (vf.face.vertex 2)).z
            + (vertex_at (render_transformed st w h) (vf.face.vertex 3)).z) / 4 := by
  have hperm : ((render_draw_order st w h).map VisibleFace.face).Perm
      (render_faces.filter (face_visible (render_transformed st w h))) := by
    rw [← collect_visible_faces]
    exact (std_sort_perm _).map VisibleFace.face
  refine ⟨hperm, ?_, std_sort_sorted _, ?_⟩
  · exact hperm.nodup_iff.mpr (render_faces_nodup.filter _)
  · intro vf hvf
    have hmem : vf ∈ render_visible_faces st w h := (std_sort_perm _).subset hvf
    have hface : vf.face ∈ render_faces := by
      have h1 : vf.face ∈ (render_visible_faces st w h).map VisibleFace.face :=
        List.mem_map_of_mem _ hmem
      rw [render_visible_faces, collect_visible_faces] at h1
      exact (List.mem_filter.mp h1).1
    rw [collect_visible_depth _ _ vf hmem]
    exact avg_z_four _ _ hface

/-! ## Handlers and scale -/

theorem get_face_range (st : AxesLollipop) (x y : ℚ) :
    -1 ≤ get_face_at_position st x y ∧ get_face_at_position st x y < 6 := by
  by_cases hz : st.m_width = 0 ∨ st.m_height = 0
  · rw [hit_guard st x y hz]
    decide
  · rw [get_face_eq_cascade st x y hz]
    generalize face_hit st x y 0 = b0
    generalize face_hit st x y 1 = b1
    generalize face_hit st x y 2 = b2
    generalize face_hit st x y 3 = b3
    generalize face_hit st x y 4 = b4
    generalize face_hit st x y 5 = b5
    revert b0 b1 b2 b3 b4 b5
    decide

theorem get_face_frame (st : AxesLollipop) (hov : Int) (lx ly x y : ℚ) :
    get_face_at_position { st with m_hovered_face := hov, m_last_x := lx, m_last_y := ly } x y =
      get_face_at_position st x y := rfl

/-- C12 (counterexample): with a stored viewport of 8x8 and a label margin of
5 the scale used by the hit-test and by `render` is -1, below zero, in exact
arithmetic and in binary32. -/
theorem scale_negative_counterexample :
    hit_scale (render ⟨Quat.identity, 5, -1, 0, 0, 0, 0⟩ 8 8) = -1 ∧
      render_scale ⟨Quat.identity, 5, -1, 0, 0, 0, 0⟩ 8 8 = -1 ∧
      ¬ (0 ≤ render_scale ⟨Quat.identity, 5, -1, 0, 0, 0, 0⟩ 8 8) ∧
      Fl.scale_of Arith.binary32 8 8 5 = -1 ∧
      Fl.hit_scale Arith.binary32 (render ⟨Quat.identity, 5, -1, 0, 0, 0, 0⟩ 8 8) = -1 := by
  have h : scale_of 8 8 5 = -1 := by
    simp [scale_of, Int.tdiv]
    norm_num
  refine ⟨h, h, ?_, by decide!, by decide!⟩
  show ¬ (0 ≤ scale_of 8 8 5)
  rw [h]
  norm_num

/-- C12 (as amended): `render` and the hit-test that follows use the same
scale, the truncated half of the smaller viewport side minus the label margin,
with no clamp; it is non-negative exactly when the label margin does not exceed
that half, and negative exactly when the label margin exceeds that half. -/
theorem scale_unclamped (st : AxesLollipop) (w h : Int) :
    render_scale st w h = ((Int.tdiv (min w h) 2 : Int) : ℚ) - st.m_size ∧
      hit_scale (render st w h) = render_scale st w h ∧
      (0 ≤ render_scale st w h ↔ st.m_size ≤ ((Int.tdiv (min w h) 2 : Int) : ℚ)) ∧
      (render_scale st w h < 0 ↔ ((Int.tdiv (min w h) 2 : Int) : ℚ) < st.m_size) := by
  refine ⟨rfl, rfl, ?_, ?_⟩
  · simp only [render_scale, scale_of]
    exact sub_nonneg
  · simp only [render_scale, scale_of]
    exact sub_neg

/-- C13: after one pointer-move at (x, y), a second pointer-move at the same
(x, y) leaves the whole state, the hovered face included, unchanged and does
not request a redraw. -/
theorem hover_idempotent (st : AxesLollipop) (x y : ℚ) :
    on_motion (on_motion st x y).1 x y = ((on_motion st x y).1, false) ∧
      ((on_motion (on_motion st x y).1 x y).1).m_hovered_face
        = ((on_motion st x y).1).m_hovered_face := by
  have h : on_motion (on_motion st x y).1 x y = ((on_motion st x y).1, false) := by
    simp [on_motion, get_face_frame]
  exact ⟨h, by rw [h]⟩

theorem names_match_table (i : Nat) (hi : i < 6) :
    ∃ face name, faces[i]? = some face ∧ face_names[i]? = some name ∧
      name = signed_axis_name face := by
  interval_cases i
  · exact ⟨_, _, rfl, rfl, by decide⟩
  · exact ⟨_, _, rfl, rfl, by decide⟩
  · exact ⟨_, _, rfl, rfl, by decide⟩
  · exact ⟨_, _, rfl, rfl, by decide⟩
  · exact ⟨_, _, rfl, rfl, by decide⟩
  · exact ⟨_, _, rfl, rfl, by decide⟩

/-- C14: the click handler prints a selection exactly when the hit-test returns
an id `f ≥ 0`; `f` is then below 6, the printed name is entry `f` of
`face_names` and is the sign and axis letter of the table entry with id `f`;
the state after the click is the state before it. -/
theorem click_selection (st : AxesLollipop) (n_press : Int) (x y : ℚ) :
    -1 ≤ get_face_at_position st x y ∧ get_face_at_position st x y < 6 ∧
      (0 ≤ get_face_at_position st x y →
        ∃ face name, faces[(get_face_at_position st x y).toNat]? = some face ∧
          face.face_id = get_face_at_position st x y ∧
          face_names[(get_face_at_position st x y).toNat]? = some name ∧
          name = signed_axis_name face ∧
          on_pressed st n_press x y = some (st, ["Clicked face: " ++ name])) ∧
      (get_face_at_position st x y < 0 → on_pressed st n_press x y = some (st, [])) := by
  obtain ⟨hlo, hhi⟩ := get_face_range st x y
  refine ⟨hlo, hhi, ?_, ?_⟩
  · intro h0
    have hi : (get_face_at_position st x y).toNat < 6 := by omega
    obtain ⟨face, name, hf, hn, hname⟩ := names_match_table _ hi
    refine ⟨face, name, hf, ?_, hn, hname, ?_⟩
    · rw [faces_id_of_get _ face hf]
      exact Int.toNat_of_nonneg h0
    · simp only [on_pressed, ge_iff_le, h0, if_true, hn]
  · intro hneg
    have : ¬ (get_face_at_position st x y ≥ 0) := by omega
    simp only [on_pressed, this, if_false]

theorem unguarded_linear_insert_stable (val : VisibleFace) (l : List VisibleFace)
    (hl : l.Pairwise (fun a b => StableBefore b a))
    (hval : ∀ a ∈ l, a.face.face_id < val.face.face_id) :
    (unguarded_linear_insert val l).Pairwise (fun a b => StableBefore b a) := by
  induction l with
  | nil => simp [unguarded_linear_insert]
  | cons next rest ih =>
    have hrest := (List.pairwise_cons.mp hl).2
    have hnext := (List.pairwise_cons.mp hl).1
    by_cases hlt : depth_less val next = true
    · simp only [unguarded_linear_insert, hlt, if_true]
      have hvn : val.depth < next.depth := by simpa [depth_less] using hlt
      refine List.pairwise_cons.mpr
        ⟨?_, ih hrest (fun a ha => hval a (List.mem_cons_of_mem _ ha))⟩
      intro b hb
      have hb2 : b ∈ val :: rest := (unguarded_linear_insert_perm val rest).subset hb
      rcases List.mem_cons.mp hb2 with h | h
      · rw [h]; exact Or.inl hvn
      · exact hnext b h
    · simp only [unguarded_linear_insert, hlt, Bool.false_eq_true, if_false]
      have hvn : next.depth ≤ val.depth := by simpa [depth_less] using hlt
      refine List.pairwise_cons.mpr ⟨?_, hl⟩
      intro b hb
      have hbid := hval b hb
      have hble : b.depth ≤ val.depth := by
        rcases List.mem_cons.mp hb with h | h
        · rw [h]; exact hvn
        · rcases hnext b h with h1 | h1
          · exact le_trans (le_of_lt h1) hvn
          · exact le_trans (le_of_eq h1.1) hvn
      rcases lt_or_eq_of_le hble with h1 | h1
      · exact Or.inl h1
      · exact Or.inr ⟨h1, hbid⟩

theorem insertion_step_stable (acc : List VisibleFace) (val : VisibleFace)
    (hacc : acc.Pairwise (fun a b => StableBefore b a))
    (hval : ∀ a ∈ acc, a.face.face_id < val.face.face_id) :
    (insertion_step acc val).Pairwise (fun a b => StableBefore b a) := by
  unfold insertion_step
  cases hl : acc.getLast? with
  | none => simp
  | some first =>
    by_cases hlt : depth_less val first = true
    · simp only [hlt, if_true]
      have hvf : val.depth < first.depth := by simpa [depth_less] using hlt
      obtain ⟨front, hfront⟩ : ∃ front, acc = front ++ [first] := by
        rcases List.eq_nil_or_concat acc with h | ⟨l, b, h⟩
        · simp [h] at hl
        · refine ⟨l, ?_⟩
          rw [h] at hl
          simp at hl
          rw [h, hl]
          simp
      rw [List.pairwise_append]
      refine ⟨hacc, List.pairwise_singleton _ _, ?_⟩
      intro a ha b hb
      rw [List.mem_singleton.mp hb]
      rw [hfront] at hacc ha
      rcases List.mem_append.mp ha with h | h
      · have := (List.pairwise_append.mp hacc).2.2 a h first (List.mem_singleton.mpr rfl)
        rcases this with h1 | h1
        · exact Or.inl (lt_trans hvf h1)
        · exact Or.inl (lt_of_lt_of_le hvf (le_of_eq h1.1))
      · rw [List.mem_singleton.mp h]; exact Or.inl hvf
    · simp only [hlt, Bool.false_eq_true, if_false]
      exact unguarded_linear_insert_stable val acc hacc hval

theorem foldl_insertion_step_stable (xs acc : List VisibleFace)
    (hacc : acc.Pairwise (fun a b => StableBefore b a))
    (hxs : xs.Pairwise (fun a b => a.face.face_id < b.face.face_id))
    (hcross : ∀ a ∈ acc, ∀ b ∈ xs, a.face.face_id < b.face.face_id) :
    (xs.foldl insertion_step acc).Pairwise (fun a b => StableBefore b a) := by
  induction xs generalizing acc with
  | nil => exact hacc
  | cons x rest ih =>
    have hx := List.pairwise_cons.mp hxs
    refine ih _ (insertion_step_stable acc x hacc
      (fun a ha => hcross a ha x (List.mem_cons_self _ _))) hx.2 ?_
    intro a ha b hb
    have ha2 : a ∈ x :: acc := (insertion_step_perm acc x).subset ha
    rcases List.mem_cons.mp ha2 with h | h
    · rw [h]; exact hx.1 b hb
    · exact hcross a h b (List.mem_cons_of_mem _ hb)

theorem std_sort_stable (xs : List VisibleFace)
    (hxs : xs.Pairwise (fun a b => a.face.face_id < b.face.face_id)) :
    (std_sort xs).Pairwise StableBefore := by
  unfold std_sort
  rw [List.pairwise_reverse]
  exact foldl_insertion_step_stable xs [] List.Pairwise.nil hxs (by simp)

theorem collect_visible_ids (tr : List Vec3) (l : List Face)
    (hl : l.Pairwise (fun a b => a.face_id < b.face_id)) :
    (collect_visible tr l).Pairwise (fun a b => a.face.face_id < b.face.face_id) := by
  have h : ((collect_visible tr l).map VisibleFace.face).Pairwise
      (fun a b => a.face_id < b.face_id) := by
    rw [collect_visible_faces]
    exact hl.sublist (List.filter_sublist l)
  rw [List.pairwise_map] at h
  exact h

theorem render_faces_ids_increasing :
    render_faces.Pairwise (fun a b => a.face_id < b.face_id) := by
  have h : (render_faces.map Face.face_id).Pairwise (fun a b => a < b) := by
    simp only [render_faces, List.map]
    decide
  rw [List.pairwise_map] at h
  exact h

theorem mem_pair_sublist {α : Type} (l : List α) (a b : α) (ha : a ∈ l) (hb : b ∈ l)
    (hab : a ≠ b) : [a, b].Sublist l ∨ [b, a].Sublist l := by
  induction l with
  | nil => simp at ha
  | cons c rest ih =>
    rcases List.mem_cons.mp ha with h1 | h1
    · rcases List.mem_cons.mp hb with h2 | h2
      · exact absurd (h1.trans h2.symm) hab
      · left
        rw [h1]
        exact List.Sublist.cons₂ c (List.singleton_sublist.mpr h2)
    · rcases List.mem_cons.mp hb with h2 | h2
      · right
        rw [h2]
        exact List.Sublist.cons₂ c (List.singleton_sublist.mpr h1)
      · rcases ih h1 h2 with h | h
        · exact Or.inl (h.cons c)
        · exact Or.inr (h.cons c)

/-- C11: when two faces that `render` draws have equal depth keys, the one
with the smaller table index is drawn first; the whole paint order is the
stable ascending order by depth key. -/
theorem paint_order_stable (st : AxesLollipop) (w h : Int) (a b : VisibleFace)
    (ha : a ∈ render_draw_order st w h) (hb : b ∈ render_draw_order st w h)
    (hdepth : a.depth = b.depth) (hid : a.face.face_id < b.face.face_id) :
    [a, b].Sublist (render_draw_order st w h) ∧
      (render_draw_order st w h).Pairwise StableBefore := by
  have hst : (render_draw_order st w h).Pairwise StableBefore :=
    std_sort_stable _ (collect_visible_ids _ _ render_faces_ids_increasing)
  refine ⟨?_, hst⟩
  have hne : a ≠ b := by
    intro hab
    rw [hab] at hid
    exact lt_irrefl _ hid
  rcases mem_pair_sublist _ a b ha hb hne with h1 | h1
  · exact h1
  · have := hst.sublist h1
    simp only [List.pairwise_cons, List.mem_singleton, forall_eq, List.not_mem_nil,
      false_imp_iff, implies_true, List.Pairwise.nil, and_true] at this
    rcases this with h2 | h2
    · rw [hdepth] at h2
      exact absurd h2 (lt_irrefl _)
    · exact absurd (lt_trans h2.2 hid) (lt_irrefl _)

/-! ## An orientation with two faces of equal depth -/

theorem transformed_tie :
    transform_all ⟨2/3, 1/3, 0, 2/3⟩ 100 vertices =
      [⟨130, 50, 70⟩, ⟨110, -110, -10⟩, ⟨-50, -130, 70⟩, ⟨-30, 30, 150⟩,
       ⟨50, 130, -70⟩, ⟨30, -30, -150⟩, ⟨-130, -50, -70⟩, ⟨-110, 110, 10⟩] := by
  have hc : corrected_view_quat ⟨2/3, 1/3, 0, 2/3⟩ = ⟨0, -2/3, 2/3, 1/3⟩ := by
    simp only [corrected_view_quat, Quat.inverse, Quat.mul, Quat.angleAxis_pi_Y,
      Quat.conjugate, Quat.dot]
    norm_num
  simp only [transform_all, hc, vertices, List.map, Quat.rotate, Vec3.add, Vec3.scale,
    Vec3.cross, size]
  norm_num

theorem draw_order_tie :
    render_draw_order ⟨⟨2/3, 1/3, 0, 2/3⟩, 5, -1, 0, 0, 0, 0⟩ 210 210 =
      [⟨⟨[4, 0, 3, 7], 0, "-X", false, 1⟩, 40⟩, ⟨⟨[3, 2, 6, 7], 1, "Y", true, 2⟩, 40⟩,
       ⟨⟨[0, 1, 2, 3], 2, "-Z", false, 5⟩, 70⟩] := by
  have hsc : scale_of 210 210 5 = 100 := by
    simp [scale_of, Int.tdiv]
    norm_num
  have htr : render_transformed ⟨⟨2/3, 1/3, 0, 2/3⟩, 5, -1, 0, 0, 0, 0⟩ 210 210 =
      [⟨130, 50, 70⟩, ⟨110, -110, -10⟩, ⟨-50, -130, 70⟩, ⟨-30, 30, 150⟩,
       ⟨50, 130, -70⟩, ⟨30, -30, -150⟩, ⟨-130, -50, -70⟩, ⟨-110, 110, 10⟩] := by
    rw [← transformed_tie]
    simp only [render_transformed, render_scale, hsc]
    rfl
  have hvis : render_visible_faces ⟨⟨2/3, 1/3, 0, 2/3⟩, 5, -1, 0, 0, 0, 0⟩ 210 210 =
      [⟨⟨[4, 0, 3, 7], 0, "-X", false, 1⟩, 40⟩, ⟨⟨[3, 2, 6, 7], 1, "Y", true, 2⟩, 40⟩,
       ⟨⟨[0, 1, 2, 3], 2, "-Z", false, 5⟩, 70⟩] := by
    simp only [render_visible_faces, htr, render_faces, collect_visible, face_visible,
      is_face_visible, avg_z, List.foldl, Face.vertex, vertex_at, List.getD_cons_zero,
      List.getD_cons_succ, Vec3.sub, Vec3.cross]
    norm_num
  rw [render_draw_order, hvis]
  simp only [std_sort, List.foldl, insertion_step, List.getLast?, List.getLast,
    unguarded_linear_insert, depth_less]
  norm_num

theorem paint_order_stable_witness :
    [(⟨⟨[4, 0, 3, 7], 0, "-X", false, 1⟩, 40⟩ : VisibleFace),
      ⟨⟨[3, 2, 6, 7], 1, "Y", true, 2⟩, 40⟩].Sublist
      (render_draw_order ⟨⟨2/3, 1/3, 0, 2/3⟩, 5, -1, 0, 0, 0, 0⟩ 210 210) :=
  (paint_order_stable ⟨⟨2/3, 1/3, 0, 2/3⟩, 5, -1, 0, 0, 0, 0⟩ 210 210
    ⟨⟨[4, 0, 3, 7], 0, "-X", false, 1⟩, 40⟩ ⟨⟨[3, 2, 6, 7], 1, "Y", true, 2⟩, 40⟩
    (by rw [draw_order_tie]; simp) (by rw [draw_order_tie]; simp) rfl (by decide)).1

/-! ## Fill colours -/

/-- C15: the channel value used for the hovered face is `min(1, c * 1.4)` of
the base channel `c`; it never exceeds 1 and equals 1 for every `c ≥ 1/1.4`; a
face that is not hovered keeps its base colour. -/
theorem brighten_clamp (new_from_int : Nat → Nat → Nat → Color) (hovered : Int)
    (face : Face) (base : Color)
    (hbase : get_color new_from_int face.axis (if face.positive then 1 else -1) = some base) :
    (hovered = face.face_id →
        fill_color new_from_int hovered face =
          some ⟨min 1 (base.r * (14 / 10)), min 1 (base.g * (14 / 10)),
            min 1 (base.b * (14 / 10))⟩) ∧
      (hovered ≠ face.face_id → fill_color new_from_int hovered face = some base) ∧
      (∀ c : ℚ, 0 ≤ c → c ≤ 1 →
        brighten c = min 1 (c * (14 / 10)) ∧ brighten c ≤ 1 ∧
          (1 / (14 / 10) ≤ c → brighten c = 1)) := by
  refine ⟨?_, ?_, ?_⟩
  · intro h
    simp only [fill_color, hbase, h, if_true, brighten]
  · intro h
    simp only [fill_color, hbase, h, if_false]
  · intro c _ _
    refine ⟨rfl, min_le_left _ _, ?_⟩
    intro hc
    unfold brighten
    apply min_eq_left
    have : (1 : ℚ) / (14 / 10) = 10 / 14 := by norm_num
    rw [this] at hc
    linarith

theorem brighten_clamp_witness :
    get_color (fun r g b => ⟨(r : ℚ) / 255, (g : ℚ) / 255, (b : ℚ) / 255⟩) 0 1
        = some ⟨255 / 255, 54 / 255, 83 / 255⟩ ∧
      fill_color (fun r g b => ⟨(r : ℚ) / 255, (g : ℚ) / 255, (b : ℚ) / 255⟩) 0
          ⟨[1, 5, 6, 2], 0, "X", true, 0⟩ =
        some ⟨min 1 (255 / 255 * (14 / 10)), min 1 (54 / 255 * (14 / 10)),
          min 1 (83 / 255 * (14 / 10))⟩ :=
  have hb : get_color (fun r g b => ⟨(r : ℚ) / 255, (g : ℚ) / 255, (b : ℚ) / 255⟩) 0 1
      = some ⟨255 / 255, 54 / 255, 83 / 255⟩ := by
    simp only [get_color]
    norm_num
  ⟨hb, (brighten_clamp (fun r g b => ⟨(r : ℚ) / 255, (g : ℚ) / 255, (b : ℚ) / 255⟩) 0
    ⟨[1, 5, 6, 2], 0, "X", true, 0⟩ ⟨255 / 255, 54 / 255, 83 / 255⟩ hb).1 rfl⟩

/-! ## The two-triangle test on a parallelogram -/

theorem fl_cross_exact (a b : Vec3) : Fl.cross Arith.exact a b = Vec3.cross a b := rfl

theorem fl_vsub_exact (a b : Vec3) : Fl.vsub Arith.exact a b = Vec3.sub a b := rfl

theorem fl_vadd_exact (a b : Vec3) : Fl.vadd Arith.exact a b = Vec3.add a b := rfl

/-- The loop of the hit-test is a first-match search over the table, whatever
the arithmetic: the structure of `hit_loop_eq_find` does not depend on
rounding. -/
theorem fl_hit_loop_eq_find (ar : Arith) (tr : List Vec3) (p : Vec2) (l : List Face) :
    Fl.hit_loop ar tr p l =
      match l.find? (Fl.face_accepts ar tr p) with
      | some face => face.face_id
      | none => -1 := by
  induction l with
  | nil => rfl
  | cons face rest ih =>
    by_cases hv : Fl.face_visible ar tr face = true
    · by_cases hp : Fl.point_in_quad ar tr face p = true
      · simp [Fl.hit_loop, List.find?, hv, hp, Fl.face_accepts]
      · simp [Fl.hit_loop, List.find?, hv, hp, ih, Fl.face_accepts]
    · simp [Fl.hit_loop, List.find?, hv, ih, Fl.face_accepts]

/-! ## Evaluations in binary32 -/

/-- Sample values of the binary32 rounding: the `float` nearest to 0.9, two
ties that go to the even significand, a value that is kept, and the gradual
underflow below `2 ^ -126`. -/
theorem round_to_samples :
    round_to 24 (-126) (9 / 10) = 7549747 / 8388608 ∧
      round_to 24 (-126) 16777217 = 16777216 ∧
      round_to 24 (-126) 16777219 = 16777220 ∧
      round_to 24 (-126) (-171 / 2) = -171 / 2 ∧
      round_to 24 (-126) (3 * pow2 (-151)) = pow2 (-149) ∧
      round_to 24 (-126) (pow2 (-150)) = 0 ∧
      round_to 53 (-1022) (9 / 10) = 8106479329266893 / 9007199254740992 := by
  refine ⟨by decide!, by decide!, by decide!, by decide!, by decide!, by decide!, by decide!⟩

/-- The three orientations of the part "Orientations at which rounding decides
the outcome" have an exact squared norm within `2 ^ -24` of 1. -/
theorem counter_quats_near_unit :
    |Quat.dot near_edge_quat near_edge_quat - 1| < 1 / 16777216 ∧
      |Quat.dot diagonal_quat diagonal_quat - 1| < 1 / 16777216 ∧
      |Quat.dot overlap_quat overlap_quat - 1| < 1 / 16777216 := by
  simp only [Quat.dot, near_edge_quat, diagonal_quat, overlap_quat, abs_lt]
  norm_num

/-! ## Visibility of opposite faces -/

end dune3d
